import Mathlib

/-!
Verification of the Profile Metrics Engine (`src/analysis/metrics.ts`) of the
devhunt repository.

The TypeScript metric functions are shallowly embedded as executable Lean
definitions:

* JavaScript numbers appearing as counts are `Nat`; ratio values are `Rat`
  (the metrics divide small exact integers, so rational arithmetic is exact;
  the spec's 1e-5 tolerance is subsumed by exact equality).
* `Math.log1p(stars)` is transcendental and cannot be a computable rational
  function.  All metric behaviour that the spec claims depends only on its
  sign (`log1p 0 = 0`, `log1p n > 0` for `n ≥ 1`), so the weight calculators
  take the function `lg` as an explicit parameter; theorems quantify over it
  (adding its sign facts as hypotheses where needed), hence they hold for the
  real `Math.log1p`.  Concrete evaluations instantiate `lg` with `lgLin`
  below, which has the same sign behaviour.
* Timestamps: `new Date(s)` either parses or yields `NaN`; the metrics read
  only `getUTCHours()` of PR/commit timestamps, so those are embedded as
  `Option Nat` — `some m` with `m` the UTC minute-of-day (`0 ≤ m < 1440`),
  `none` for an unparseable string.  Grit-factor timestamps are compared as
  epoch milliseconds and are embedded as `Option Int`.
* JavaScript `Map` preserves insertion order: it is embedded as an
  association list with in-place update (`mapAdd` / `mapSet` / `mapUpdate`).
* `Array.prototype.sort` is stable (ES2019); with the comparator
  `(a, b) => b.value - a.value` it is embedded as Mathlib's stable
  `List.insertionSort` with the relation `fun a b => value b ≤ value a`.
* The JS `%` operator on numbers (remainder with the dividend's sign,
  truncated quotient) is embedded as `jsModQ` on `Rat` and `Int.tmod` on
  `Int`.
* In `computeHoursHistogram`, an index outside `0..23` (possible only for
  timezone offsets below -4320 minutes) makes `buckets[idx] = …` create a
  non-index property on the JS array, leaving the 24 bins untouched; the
  embedding models the observable 24 bins, so such a write is a no-op.
-/

/-- Linear stand-in for `Math.log1p` used for concrete evaluations: it agrees
with `log1p` in sign (`0` at `0`, positive on positives), which is the only
property of `log1p` the verified statements depend on. -/
def lgLin (n : Nat) : Rat := (n : Rat)

/-! ## Association-list embedding of the JavaScript `Map` -/

/-- `map.set(k, (map.get(k) ?? 0) + w)`: add `w` to the entry of `k`, keeping
the key's position; a new key is appended at the end (JS `Map` insertion
order). -/
def mapAdd {β : Type} [Add β] : List (String × β) → String → β → List (String × β)
  | [], k, w => [(k, w)]
  | (k', w') :: rest, k, w =>
    if k' = k then (k', w' + w) :: rest else (k', w') :: mapAdd rest k w

/-- `map.set(k, v)`: overwrite the entry of `k` in place, append a new key at
the end. -/
def mapSet {β : Type} : List (String × β) → String → β → List (String × β)
  | [], k, v => [(k, v)]
  | (k', v') :: rest, k, v =>
    if k' = k then (k', v) :: rest else (k', v') :: mapSet rest k v

/-- Update the value stored at `k` (if any) in place; no entry is created. -/
def mapUpdate {β : Type} : List (String × β) → String → (β → β) → List (String × β)
  | [], _, _ => []
  | (k', v') :: rest, k, f =>
    if k' = k then (k', f v') :: rest else (k', v') :: mapUpdate rest k f

/-! ## JavaScript arithmetic helpers -/

/-- Truncation toward zero of a rational, as used by the JS `%` operator. -/
def qtrunc (q : Rat) : Int := if 0 ≤ q then ⌊q⌋ else ⌈q⌉

/-- The JS `%` operator on numbers: `a % n = a - n * trunc (a / n)` (the
result carries the dividend's sign). -/
def jsModQ (a n : Rat) : Rat := a - n * qtrunc (a / n)

/-- `dt.getUTCHours()` for a timestamp given as UTC minute-of-day. -/
def getUTCHours (m : Nat) : Nat := m % 1440 / 60

/-- `s.toLowerCase()` for the ASCII identifiers of this data model (GitHub
logins and repository names): lower-case every character. -/
def jsToLower (s : String) : String := String.mk (s.data.map Char.toLower)

/-- The bucket index computed by `computeHoursHistogram` and
`computeNightRatio`:
`Math.floor((utcHours + tzOffsetMinutes / 60 + 24 * 3) % 24) % 24`, with both
`%` in JS semantics. -/
def jsHourIndex (utcHours : Nat) (tzOffsetMinutes : Int) : Int :=
  (⌊jsModQ ((utcHours : Rat) + (tzOffsetMinutes : Rat) / 60 + 24 * 3) 24⌋).tmod 24

/-! ## Data model (`src/types/github.ts`, `src/scan.ts`) -/

/-- One edge of `RepoRecord.languages.edges`. -/
structure LangEdge where
  name : String
  size : Nat
deriving DecidableEq, Repr

/-- `RepoRecord`, restricted to the fields the verified metrics read.
`createdAtMs`/`pushedAtMs` are the `new Date(_).getTime()` parses (epoch ms,
`none` = unparseable `NaN`); the outer `Option` of `pushedAtMs` is the
`pushedAt: string | null` field itself (`none` = null, so `pushedAt ??
createdAt` applies).  `repositoryTopics` is the list of topic names, `none`
when the optional field is absent. -/
structure RepoRecord where
  name : String
  owner : String
  isFork : Bool
  stargazerCount : Nat
  primaryLanguage : Option String
  languages : Option (List LangEdge)
  repositoryTopics : Option (List String)
  createdAtMs : Option Int
  pushedAtMs : Option (Option Int)
deriving DecidableEq, Repr

/-- `PRRecord`, restricted to the fields the verified metrics read.
`createdAt` is the parsed UTC minute-of-day (`none` = unparseable);
`mergedAt` is the truthiness of the nullable merge timestamp. -/
structure PRRecord where
  createdAt : Option Nat
  mergedAt : Bool
  repoOwner : String
deriving DecidableEq, Repr

/-- `CommitRecord.associatedPRs[i].baseRepo` (when non-null). -/
structure BaseRepoInfo where
  owner : String
  name : String
  stargazerCount : Nat
deriving DecidableEq, Repr

/-- One element of `CommitRecord.associatedPRs`, restricted to the fields
`computeForkDestiny` reads. -/
structure AssociatedPR where
  isCrossRepository : Bool
  isMerged : Bool
  baseRepo : Option BaseRepoInfo
deriving DecidableEq, Repr

/-- `CommitRecord.repo`. -/
structure CommitRepoInfo where
  owner : String
  name : String
  isOwn : Bool
deriving DecidableEq, Repr

/-- `CommitRecord`, restricted to the fields the verified metrics read.
`authoredAt` is the parsed UTC minute-of-day (`none` = unparseable). -/
structure CommitRecord where
  repo : CommitRepoInfo
  authoredAt : Option Nat
  isMerge : Bool
  associatedPRs : List AssociatedPR
deriving DecidableEq, Repr

/-- `UserInfo`, restricted to what `computeUniIndexV0` reads: the login names
of the organization memberships. -/
structure UserInfo where
  organizations : List String
deriving DecidableEq, Repr

/-- `ContributionsSummary` totals read by `computeCommunityEngagement`. -/
structure ContributionsSummary where
  totalCommitContributions : Nat
  totalIssueContributions : Nat
  totalPullRequestContributions : Nat
  totalPullRequestReviewContributions : Nat
  totalRepositoryContributions : Nat
deriving DecidableEq, Repr

/-- The `{ value, sample_size }` result shape of the ratio metrics. -/
structure RatioResult where
  value : Option Rat
  sample_size : Nat
deriving DecidableEq, Repr

/-! ## `parseTimezoneOffset` and `formatHour` -/

/-- The regex `^([+-])(\d{2}):(\d{2})$` of `parseTimezoneOffset`: on a match,
the signed offset `sign * (hours * 60 + minutes)`. -/
def offsetMatch (s : String) : Option Int :=
  match s.toList with
  | [sgn, a, b, c, d, e] =>
    if (sgn = '+' ∨ sgn = '-') ∧ c = ':' ∧ a.isDigit ∧ b.isDigit ∧ d.isDigit ∧ e.isDigit then
      let hours : Int := (a.toNat - 48) * 10 + (b.toNat - 48)
      let minutes : Int := (d.toNat - 48) * 10 + (e.toNat - 48)
      let v := hours * 60 + minutes
      some (if sgn = '-' then -v else v)
    else none
  | _ => none

/-- `parseTimezoneOffset(tz)`: offset strings parse via the regex, the IANA
name Asia/Shanghai is hardcoded to 480, everything else (including absent and
empty input, both falsy) falls back to 0 (UTC). -/
def parseTimezoneOffset (tz : Option String) : Int :=
  match tz with
  | none => 0
  | some s =>
    if s = "" then 0
    else
      match offsetMatch s with
      | some v => v
      | none => if s = "Asia/Shanghai" then 8 * 60 else 0

/-- `formatHour(h)`: `h.toString().padStart(2, "0") + ":00"`. -/
def formatHour (h : Nat) : String :=
  let s := toString h
  (if s.length < 2 then "0" ++ s else s) ++ ":00"

/-! ## Weight calculators (`computeLanguageWeights`, `computeTopicWeights`) -/

/-- Per-repository weight of `computeLanguageWeights`:
`const w = Math.log1p(stars); const weight = w > 0 ? w : 1;`
(the v0.0.9 minimum weight 1 for zero-star repositories). -/
def starWeight (lg : Nat → Rat) (stars : Nat) : Rat :=
  let w := lg stars
  if 0 < w then w else 1

/-- The `(lang, weight)` contribution each repository makes inside the loop of
`computeLanguageWeights`: repositories without a `primaryLanguage` are
skipped. -/
def langContribs (lg : Nat → Rat) (repos : List RepoRecord) : List (String × Rat) :=
  repos.filterMap fun repo =>
    repo.primaryLanguage.map fun lang => (lang, starWeight lg repo.stargazerCount)

/-- The `(topic, repoWeight)` contributions each repository makes inside the
loop of `computeTopicWeights`: repositories without topics and repositories
with `repoWeight = Math.log1p(stars) ≤ 0` are skipped. -/
def topicContribs (lg : Nat → Rat) (repos : List RepoRecord) : List (String × Rat) :=
  repos.flatMap fun repo =>
    match repo.repositoryTopics with
    | none => []
    | some topics =>
      let repoWeight := lg repo.stargazerCount
      if repoWeight ≤ 0 then []
      else topics.map fun topic => (topic, repoWeight)

/-- The accumulation loop: a JS `Map` built by `map.set(k, (map.get(k) ?? 0) + w)`. -/
def accumWeights (ps : List (String × Rat)) : List (String × Rat) :=
  ps.foldl (fun m p => mapAdd m p.1 p.2) []

/-- The normalization + sort shared by both weight calculators:
`total = Σ w || 1`, map each entry to `w / total`, sort by weight descending
(stable JS sort). -/
def normalizeWeights (entries : List (String × Rat)) : List (String × Rat) :=
  let total := (entries.map Prod.snd).sum
  let t := if total = 0 then 1 else total
  List.insertionSort (fun a b => b.2 ≤ a.2) (entries.map fun e => (e.1, e.2 / t))

/-- `computeLanguageWeights(repos)` (star-weighted primary languages,
normalized, descending).  `lg` models `Math.log1p`. -/
def computeLanguageWeights (lg : Nat → Rat) (repos : List RepoRecord) : List (String × Rat) :=
  normalizeWeights (accumWeights (langContribs lg repos))

/-- `computeTopicWeights(repos)`, its `weight` field (the source also returns
raw `count`/`weighted_count` tallies, which no verified claim reads).
`lg` models `Math.log1p`. -/
def computeTopicWeights (lg : Nat → Rat) (repos : List RepoRecord) : List (String × Rat) :=
  normalizeWeights (accumWeights (topicContribs lg repos))

/-! ## `computeFocusRatio` -/

/-- `computeFocusRatio(repos)`: aggregate raw bytes per language over all
repositories, value = max language bytes / total bytes, sample = total
bytes; null when no bytes exist. -/
def computeFocusRatio (repos : List RepoRecord) : RatioResult :=
  let langBytes : List (String × Nat) :=
    repos.foldl
      (fun m repo =>
        match repo.languages with
        | none => m
        | some edges => edges.foldl (fun m e => mapAdd m e.name e.size) m)
      []
  let totalBytes := (langBytes.map Prod.snd).sum
  let maxBytes := (langBytes.map Prod.snd).foldl max 0
  if totalBytes = 0 then ⟨none, 0⟩
  else ⟨some ((maxBytes : Rat) / (totalBytes : Rat)), totalBytes⟩

/-! ## Hours histogram, core hours, night ratio -/

/-- `hist[h] ?? 0` for a histogram array (out-of-range reads give
`undefined`, hence 0). -/
def getBin (hist : List (Option Int)) (h : Nat) : Int :=
  (hist.getD h none).getD 0

/-- `computeHoursHistogram(prs, tzOffsetMinutes)`: 24 buckets starting at
`null`; each PR with a parseable `createdAt` increments the bucket
`jsHourIndex (getUTCHours m) off`.  A negative index (offset below -4320)
writes a non-index property on the JS array and leaves all 24 bins unchanged,
which the embedding renders as a no-op. -/
def computeHoursHistogram (prs : List PRRecord) (tzOffsetMinutes : Int) : List (Option Int) :=
  prs.foldl
    (fun buckets pr =>
      match pr.createdAt with
      | none => buckets
      | some m =>
        let idx := jsHourIndex (getUTCHours m) tzOffsetMinutes
        if 0 ≤ idx ∧ idx < 24 then
          buckets.set idx.toNat (some ((buckets.getD idx.toNat none).getD 0 + 1))
        else buckets)
    (List.replicate 24 none)

/-- The total of a histogram: `for (const v of hist) total += v ?? 0`. -/
def histTotal (hist : List (Option Int)) : Int :=
  hist.foldl (fun s v => s + v.getD 0) 0

/-- One `{start, end, value}` two-hour window of `computeCoreHours`. -/
structure WindowSum where
  start : Nat
  next : Nat
  value : Int
deriving DecidableEq, Repr

/-- One `{start, end}` entry of `computeCoreHours`' result. -/
structure CoreWindow where
  start : String
  stop : String
deriving DecidableEq, Repr

/-- `computeCoreHours(hist)`: empty when the histogram total is 0; otherwise
the 24 rolling two-hour windows, stably sorted by value descending, top 2,
formatted. -/
def computeCoreHours (hist : List (Option Int)) : List CoreWindow :=
  if histTotal hist = 0 then []
  else
    let pairs := (List.range 24).map fun h =>
      WindowSum.mk h ((h + 1) % 24) (getBin hist h + getBin hist ((h + 1) % 24))
    let top := (List.insertionSort (fun a b => b.value ≤ a.value) pairs).take 2
    top.map fun p => CoreWindow.mk (formatHour p.start) (formatHour p.next)

/-- The night window test of `computeNightRatio`: local hour in
`{22, 23, 0, 1, 2, 3, 4}`. -/
def isNightHour (hour : Int) : Prop :=
  hour = 22 ∨ hour = 23 ∨ hour = 0 ∨ hour = 1 ∨ hour = 2 ∨ hour = 3 ∨ hour = 4

instance (hour : Int) : Decidable (isNightHour hour) := by
  unfold isNightHour; infer_instance

/-- A commit counts toward the night-ratio denominator: not a merge commit,
parseable author timestamp. -/
def countsForNight (c : CommitRecord) : Prop := ¬c.isMerge ∧ c.authoredAt.isSome

instance (c : CommitRecord) : Decidable (countsForNight c) := by
  unfold countsForNight; infer_instance

/-- A commit counts as a night commit: counts for the denominator and its
local hour falls in the night window. -/
def isNightCommit (c : CommitRecord) (tzOffsetMinutes : Int) : Prop :=
  ¬c.isMerge ∧ ∃ m, c.authoredAt = some m ∧ isNightHour (jsHourIndex (getUTCHours m) tzOffsetMinutes)

instance (c : CommitRecord) (off : Int) : Decidable (isNightCommit c off) := by
  unfold isNightCommit
  cases c.authoredAt <;> simp <;> infer_instance

/-- `computeNightRatio(commits, tzOffsetMinutes)`: non-merge commits with a
parseable `authoredAt` form the denominator, those whose local hour lies in
the night window form the numerator; null value when the denominator is 0. -/
def computeNightRatio (commits : Option (List CommitRecord)) (tzOffsetMinutes : Int) :
    RatioResult :=
  let list := commits.getD []
  let total := list.countP fun c => decide (countsForNight c)
  let night := list.countP fun c => decide (isNightCommit c tzOffsetMinutes)
  if total = 0 then ⟨none, 0⟩
  else ⟨some ((night : Rat) / (total : Rat)), total⟩

/-! ## UOI, external accept rate, Uni Index -/

/-- A PR targets the subject's own repository (case-insensitive owner
comparison). -/
def isSelfPr (login : String) (pr : PRRecord) : Prop :=
  jsToLower pr.repoOwner = jsToLower login

instance (login : String) (pr : PRRecord) : Decidable (isSelfPr login pr) := by
  unfold isSelfPr; infer_instance

/-- `computeUoi(prs, login)`: external / (external + self), null when the PR
list is empty. -/
def computeUoi (prs : List PRRecord) (login : String) : Option Rat :=
  let self := prs.countP fun pr => decide (isSelfPr login pr)
  let external := prs.countP fun pr => decide (¬isSelfPr login pr)
  let denom := external + self
  if denom = 0 then none
  else some ((external : Rat) / (denom : Rat))

/-- `computeExternalPrAcceptRate(prs, login)`: merged external / total
external, null when there is no external PR. -/
def computeExternalPrAcceptRate (prs : List PRRecord) (login : String) : Option Rat :=
  let externalTotal := prs.countP fun pr => decide (¬isSelfPr login pr)
  let merged := prs.countP fun pr => decide (¬isSelfPr login pr) && pr.mergedAt
  if externalTotal = 0 then none
  else some ((merged : Rat) / (externalTotal : Rat))

/-- The `{ value, sample_size, include_org_repos }` result of
`computeUniIndexV0`. -/
structure UniIndexResult where
  value : Option Rat
  sample_size : Nat
  include_org_repos : Bool
deriving DecidableEq, Repr

/-- The per-PR score of `computeUniIndexV0`: 1 point, plus 1 if merged. -/
def prScore (pr : PRRecord) : Nat := 1 + (if pr.mergedAt then 1 else 0)

/-- A PR belongs to the owned side of the Uni Index: the target owner is the
subject, or (when enabled) one of the subject's organizations. -/
def isOwnedSide (login : String) (orgLogins : List String) (pr : PRRecord) : Prop :=
  jsToLower pr.repoOwner = jsToLower login ∨ jsToLower pr.repoOwner ∈ orgLogins

instance (login : String) (orgs : List String) (pr : PRRecord) :
    Decidable (isOwnedSide login orgs pr) := by
  unfold isOwnedSide; infer_instance

/-- The scoring core of `computeUniIndexV0`, with the organization logins
already resolved: owned activity = own-repo commits (1 each) + owned-side PR
scores; external activity = external PR scores; value = owned / total, null
when the total activity is 0; sample size = commit count + PR count. -/
def uniIndexWith (prs : List PRRecord) (commits : Option (List CommitRecord))
    (login : String) (orgLogins : List String) (includeOrgRepos : Bool) : UniIndexResult :=
  let commitList := commits.getD []
  let ownCommits := commitList.countP fun c => c.repo.isOwn
  let ownedPrScores :=
    ((prs.filter fun pr => decide (isOwnedSide login orgLogins pr)).map prScore).sum
  let externalPrScores :=
    ((prs.filter fun pr => decide (¬isOwnedSide login orgLogins pr)).map prScore).sum
  let ownedActivity := ownCommits + ownedPrScores
  let externalActivity := externalPrScores
  let totalActivity := ownedActivity + externalActivity
  if totalActivity = 0 then ⟨none, 0, includeOrgRepos⟩
  else
    ⟨some ((ownedActivity : Rat) / (totalActivity : Rat)),
      commitList.length + prs.length, includeOrgRepos⟩

/-- `computeUniIndexV0(prs, commits, login, userInfo, includeOrgRepos)`:
resolve the organization logins (lower-cased; empty unless
`includeOrgRepos`), then score as in `uniIndexWith`. -/
def computeUniIndexV0 (prs : List PRRecord) (commits : Option (List CommitRecord))
    (login : String) (userInfo : Option UserInfo) (includeOrgRepos : Bool) : UniIndexResult :=
  uniIndexWith prs commits login
    (if includeOrgRepos then ((userInfo.map (·.organizations)).getD []).map jsToLower else [])
    includeOrgRepos

/-! ## Grit factor -/

/-- The `{ value, sample_size, long_term_count, gem_count, churn_count }`
result of `computeGritFactor`. -/
structure GritResult where
  value : Option Rat
  sample_size : Nat
  long_term_count : Nat
  gem_count : Nat
  churn_count : Nat
deriving DecidableEq, Repr

/-- An original repository for the grit factor: not a fork, owned by the
subject (case-insensitive). -/
def isOriginalRepo (login : String) (r : RepoRecord) : Prop :=
  ¬r.isFork ∧ jsToLower r.owner = jsToLower login

instance (login : String) (r : RepoRecord) : Decidable (isOriginalRepo login r) := by
  unfold isOriginalRepo; infer_instance

/-- The lifespan in whole days used by `computeGritFactor`:
`pushedAt ?? createdAt` minus `createdAt` in ms, 0 when either parse is `NaN`
(`Number.isFinite` guard), clamped at 0, floor-divided by 86400000. -/
def lifeSpanDays (r : RepoRecord) : Nat :=
  let createdTime := r.createdAtMs
  let pushedTime := r.pushedAtMs.getD r.createdAtMs
  let diffMs : Int :=
    match createdTime, pushedTime with
    | some c, some p => p - c
    | _, _ => 0
  (if diffMs < 0 then 0 else diffMs).toNat / 86400000

/-- The long-term test of `computeGritFactor` (`lifeSpanDays ≥ 90`). -/
def isLongTermRepo (r : RepoRecord) : Prop := 90 ≤ lifeSpanDays r

instance (r : RepoRecord) : Decidable (isLongTermRepo r) := by
  unfold isLongTermRepo; infer_instance

/-- The gem test of `computeGritFactor` (not long-term, `stars ≥ 5`). -/
def isGemRepo (r : RepoRecord) : Prop := ¬isLongTermRepo r ∧ 5 ≤ r.stargazerCount

instance (r : RepoRecord) : Decidable (isGemRepo r) := by
  unfold isGemRepo; infer_instance

/-- `computeGritFactor(repos, login)`: classify each original repository as
long-term / gem / churn and return `(longTerm + gem) / total`, null when
there is no original repository. -/
def computeGritFactor (repos : List RepoRecord) (login : String) : GritResult :=
  let original := repos.filter fun r => decide (isOriginalRepo login r)
  let sampleSize := original.length
  if sampleSize = 0 then ⟨none, 0, 0, 0, 0⟩
  else
    let longTerm := original.countP fun r => decide (isLongTermRepo r)
    let gem := original.countP fun r => decide (isGemRepo r)
    let churn := original.countP fun r => decide (¬isLongTermRepo r ∧ ¬isGemRepo r)
    ⟨some (((longTerm + gem : Nat) : Rat) / (sampleSize : Rat)), sampleSize,
      longTerm, gem, churn⟩

/-! ## Fork destiny -/

/-- The `ForkInfo` accumulator of `computeForkDestiny`. -/
structure ForkInfo where
  owner : String
  name : String
  stars : Nat
  hasMergedExternalPr : Bool
  maxBaseStars : Option Nat
deriving DecidableEq, Repr

/-- The `{ total_forks, …, variant_fork_stars }` result of
`computeForkDestiny`. -/
structure ForkDestinyResult where
  total_forks : Nat
  contributor_forks : Nat
  variant_forks : Nat
  noise_forks : Nat
  total_fork_stars : Nat
  variant_fork_stars : Nat
deriving DecidableEq, Repr

/-- An owned fork: `isFork` and owned by the subject (case-insensitive). -/
def isOwnedFork (login : String) (r : RepoRecord) : Prop :=
  r.isFork ∧ jsToLower r.owner = jsToLower login

instance (login : String) (r : RepoRecord) : Decidable (isOwnedFork login r) := by
  unfold isOwnedFork; infer_instance

/-- The `owner/name` lower-cased map key of `computeForkDestiny`. -/
def forkKey (owner name : String) : String :=
  jsToLower owner ++ "/" ++ jsToLower name

/-- Fold one commit's `associatedPRs` into a `ForkInfo`: cross-repository PRs
with a base repository owned by someone else raise `maxBaseStars` (when the
base has stars) and set `hasMergedExternalPr` when merged. -/
def applyAssociatedPRs (lowerLogin : String) (info : ForkInfo) (c : CommitRecord) : ForkInfo :=
  c.associatedPRs.foldl
    (fun info pr =>
      if ¬pr.isCrossRepository then info
      else
        match pr.baseRepo with
        | none => info
        | some base =>
          if jsToLower base.owner = lowerLogin then info
          else
            let info1 :=
              if 0 < base.stargazerCount then
                match info.maxBaseStars with
                | none => { info with maxBaseStars := some base.stargazerCount }
                | some mx =>
                  if mx < base.stargazerCount then
                    { info with maxBaseStars := some base.stargazerCount }
                  else info
              else info
            if pr.isMerged then { info1 with hasMergedExternalPr := true } else info1)
    info

/-- The variant test of `computeForkDestiny`:
`absHigh = stars >= 50`, or
`relHigh = maxBaseStars != null && maxBaseStars > 0 && stars / maxBaseStars >= 0.3`. -/
def isVariantFork (info : ForkInfo) : Bool :=
  decide (50 ≤ info.stars) ||
    (match info.maxBaseStars with
     | none => false
     | some mb => decide (0 < mb) && decide ((3 : Rat) / 10 ≤ (info.stars : Rat) / (mb : Rat)))

/-- `computeForkDestiny(repos, commits, login)`: deduplicate the owned forks
into a map keyed by `owner/name` (lower-cased), mark merged external PRs and
the highest-star targeted base from the commits' associated PRs, then
classify every map entry as contributor / variant / noise. -/
def computeForkDestiny (repos : List RepoRecord) (commits : Option (List CommitRecord))
    (login : String) : ForkDestinyResult :=
  let lowerLogin := jsToLower login
  let ownedForks := repos.filter fun r => decide (isOwnedFork login r)
  let totalForks := ownedForks.length
  if totalForks = 0 then ⟨0, 0, 0, 0, 0, 0⟩
  else
    let forkMap0 : List (String × ForkInfo) :=
      ownedForks.foldl
        (fun m repo =>
          mapSet m (forkKey repo.owner repo.name)
            ⟨repo.owner, repo.name, repo.stargazerCount, false, none⟩)
        []
    let commitList := commits.getD []
    let forkMap :=
      commitList.foldl
        (fun m c =>
          mapUpdate m (forkKey c.repo.owner c.repo.name) fun info =>
            applyAssociatedPRs lowerLogin info c)
        forkMap0
    let infos := forkMap.map Prod.snd
    let contributor := infos.countP fun i => i.hasMergedExternalPr
    let variant := infos.countP fun i => !i.hasMergedExternalPr && isVariantFork i
    let noise := infos.countP fun i => !i.hasMergedExternalPr && !isVariantFork i
    let totalStars := (infos.map (·.stars)).sum
    let variantStars :=
      ((infos.filter fun i => !i.hasMergedExternalPr && isVariantFork i).map
        (·.stars)).sum
    ⟨totalForks, contributor, variant, noise, totalStars, variantStars⟩

/-! ## Community engagement -/

/-- The `{ value, talk_events, code_events, sample_size }` result of
`computeCommunityEngagement`. -/
structure CommunityResult where
  value : Option Rat
  talk_events : Nat
  code_events : Nat
  sample_size : Nat
deriving DecidableEq, Repr

/-- `computeCommunityEngagement(contributions)`: talk = issues + reviews,
code = commits + PRs + repositories, value = talk / (talk + code), null when
the summary is absent or the total is 0. -/
def computeCommunityEngagement (contributions : Option ContributionsSummary) :
    CommunityResult :=
  match contributions with
  | none => ⟨none, 0, 0, 0⟩
  | some c =>
    let talk := c.totalIssueContributions + c.totalPullRequestReviewContributions
    let code := c.totalCommitContributions + c.totalPullRequestContributions +
      c.totalRepositoryContributions
    let sampleSize := talk + code
    if sampleSize = 0 then ⟨none, talk, code, 0⟩
    else ⟨some ((talk : Rat) / (sampleSize : Rat)), talk, code, sampleSize⟩

/-! ## Facts about `jsHourIndex` -/

/-- The local hour that the spec's wording ascribes to a timestamp: the hour
of (UTC time + offset), wrapped to a day.  `m` is the UTC minute-of-day. -/
def trueLocalHour (m : Nat) (off : Int) : Int := ((m : Int) + off) % 1440 / 60

/-- For any offset within the `+ 24 * 3` wrap-around guard (i.e. at least
-4320 minutes), the source's bucket index is the mathematical
`(utcHours + 72 + ⌊off / 60⌋) mod 24`: the offset is floor-divided to hours
and added to the whole UTC hour. -/
theorem jsHourIndex_eq_emod (utcHours : Nat) (off : Int) (hoff : -4320 ≤ off) :
    jsHourIndex utcHours off = ((utcHours : Int) + 72 + off / 60) % 24 := by
  unfold jsHourIndex jsModQ qtrunc
  set y : Rat := (utcHours : Rat) + (off : Rat) / 60 + 24 * 3 with hy
  have h60 : (0 : Rat) < 60 := by norm_num
  have hcast : ((-4320 : Int) : Rat) ≤ (off : Rat) := by exact_mod_cast hoff
  have hdiv : (-72 : Rat) ≤ (off : Rat) / 60 := by
    rw [le_div_iff₀ h60]
    push_cast at hcast ⊢
    linarith
  have hy0 : 0 ≤ y := by
    have h1 : (0 : Rat) ≤ (utcHours : Rat) := Nat.cast_nonneg _
    rw [hy]; linarith
  have htr : (if 0 ≤ y / 24 then ⌊y / 24⌋ else ⌈y / 24⌉) = ⌊y / 24⌋ :=
    if_pos (div_nonneg hy0 (by norm_num))
  rw [htr]
  have hfl : ⌊y - 24 * (⌊y / 24⌋ : Rat)⌋ = ⌊y⌋ - 24 * ⌊y / 24⌋ := by
    have h : y - 24 * (⌊y / 24⌋ : Rat) = y - ((24 * ⌊y / 24⌋ : Int) : Rat) := by
      push_cast; ring
    rw [h, Int.floor_sub_int]
  have hq1 : ((⌊y / 24⌋ : Int) : Rat) ≤ y / 24 := Int.floor_le _
  have hq2 : y / 24 < (⌊y / 24⌋ : Rat) + 1 := Int.lt_floor_add_one _
  have h24 : (24 : Rat) * (y / 24) = y := by ring
  have hm0 : (0 : Rat) ≤ y - 24 * (⌊y / 24⌋ : Rat) := by nlinarith
  have hm24 : y - 24 * (⌊y / 24⌋ : Rat) < 24 := by nlinarith
  have hz0 : 0 ≤ ⌊y⌋ - 24 * ⌊y / 24⌋ := by
    rw [← hfl]; exact Int.le_floor.mpr (by exact_mod_cast hm0)
  have hz24 : ⌊y⌋ - 24 * ⌊y / 24⌋ < 24 := by
    rw [← hfl]; exact Int.floor_lt.mpr (by exact_mod_cast hm24)
  rw [hfl, Int.tmod_eq_emod hz0 (by norm_num)]
  have hfy : ⌊y⌋ = (utcHours : Int) + 72 + off / 60 := by
    have h : y = (off : Rat) / 60 + (((utcHours : Int) + 72 : Int) : Rat) := by
      rw [hy]; push_cast; ring
    rw [h, Int.floor_add_int]
    have h2 : ⌊(off : Rat) / 60⌋ = off / 60 := by
      simpa using Rat.floor_intCast_div_natCast off 60
    omega
  omega

/-- Within the wrap-around guard the bucket index is a valid bin. -/
theorem jsHourIndex_range (utcHours : Nat) (off : Int) (hoff : -4320 ≤ off) :
    0 ≤ jsHourIndex utcHours off ∧ jsHourIndex utcHours off < 24 := by
  rw [jsHourIndex_eq_emod utcHours off hoff]
  constructor
  · exact Int.emod_nonneg _ (by norm_num)
  · exact Int.emod_lt_of_pos _ (by norm_num)

/-- For whole-hour offsets the source's bucket index coincides with the
timestamp's true local hour. -/
theorem jsHourIndex_eq_trueLocalHour (m : Nat) (off : Int) (hoff : -4320 ≤ off)
    (hwh : 60 ∣ off) : jsHourIndex (getUTCHours m) off = trueLocalHour m off := by
  obtain ⟨h, rfl⟩ := hwh
  rw [jsHourIndex_eq_emod _ _ hoff]
  unfold getUTCHours trueLocalHour
  push_cast
  omega

/-! ## Histogram bin characterization -/

/-- A PR lands in bin `j`: its timestamp parses and the source's bucket index
for its UTC hour equals `j`. -/
def prAtBin (off : Int) (j : Nat) (pr : PRRecord) : Prop :=
  ∃ m, pr.createdAt = some m ∧ jsHourIndex (getUTCHours m) off = (j : Int)

instance (off : Int) (j : Nat) (pr : PRRecord) : Decidable (prAtBin off j pr) := by
  unfold prAtBin
  cases pr.createdAt <;> simp <;> infer_instance

/-- The number of PRs landing in bin `j`. -/
def binCount (prs : List PRRecord) (off : Int) (j : Nat) : Nat :=
  prs.countP fun pr => decide (prAtBin off j pr)

/-- What a bin holds after `c` further events land on an initial content
`a`: still `null` only when it was `null` and nothing landed. -/
def mergeBin (a : Option Int) (c : Nat) : Option Int :=
  if a = none ∧ c = 0 then none else some (a.getD 0 + c)

theorem hist_foldl_getD (off : Int) (prs : List PRRecord) :
    ∀ acc : List (Option Int), acc.length = 24 → ∀ j : Nat, j < 24 →
      ((prs.foldl
        (fun buckets pr =>
          match pr.createdAt with
          | none => buckets
          | some m =>
            let idx := jsHourIndex (getUTCHours m) off
            if 0 ≤ idx ∧ idx < 24 then
              buckets.set idx.toNat (some ((buckets.getD idx.toNat none).getD 0 + 1))
            else buckets)
        acc).getD j none) = mergeBin (acc.getD j none) (binCount prs off j) := by
  induction prs with
  | nil =>
    intro acc hlen j hj
    simp only [List.foldl_nil, binCount, List.countP_nil, mergeBin]
    cases h : acc.getD j none with
    | none => simp
    | some v => simp
  | cons pr rest ih =>
    intro acc hlen j hj
    rw [List.foldl_cons]
    cases hc : pr.createdAt with
    | none =>
      simp only [hc]
      rw [ih acc hlen j hj]
      have hnot : ¬ prAtBin off j pr := by simp [prAtBin, hc]
      simp [binCount, List.countP_cons, hnot]
    | some m =>
      simp only [hc]
      set idx := jsHourIndex (getUTCHours m) off with hidx
      by_cases hr : 0 ≤ idx ∧ idx < 24
      · rw [if_pos hr]
        set acc' := acc.set idx.toNat (some ((acc.getD idx.toNat none).getD 0 + 1)) with hacc'
        have hlen' : acc'.length = 24 := by simp [hacc', hlen]
        rw [ih acc' hlen' j hj]
        have hset : acc'.getD idx.toNat none =
            some ((acc.getD idx.toNat none).getD 0 + 1) := by
          rw [hacc']
          simp [List.getD, List.getElem?_set_self, show idx.toNat < acc.length by omega]
        by_cases hij : idx.toNat = j
        · have hpr : prAtBin off j pr := ⟨m, hc, by omega⟩
          have hget : acc'.getD j none = some ((acc.getD j none).getD 0 + 1) := by
            rw [← hij]; exact hset
          have hcnt : binCount (pr :: rest) off j = binCount rest off j + 1 := by
            simp [binCount, List.countP_cons, hpr]
          rw [hget, hcnt]
          simp only [mergeBin]
          rw [if_neg (by simp), if_neg (by simp)]
          simp only [Option.getD_some, Option.some.injEq]
          push_cast
          ring
        · have hpr : ¬ prAtBin off j pr := by
            rintro ⟨m', hm', hbin⟩
            rw [hc] at hm'
            injection hm' with hm'
            subst hm'
            omega
          have hget : acc'.getD j none = acc.getD j none := by
            rw [hacc', List.getD_eq_getElem?_getD, List.getElem?_set_ne hij,
              ← List.getD_eq_getElem?_getD]
          rw [hget]
          simp [binCount, List.countP_cons, hpr]
      · rw [if_neg hr]
        rw [ih acc hlen j hj]
        have hpr : ¬ prAtBin off j pr := by
          rintro ⟨m', hm', hbin⟩
          rw [hc] at hm'
          injection hm' with hm'
          subst hm'
          omega
        simp [binCount, List.countP_cons, hpr]

/-- Every bin of `computeHoursHistogram` holds exactly the number of PRs that
land in it, and stays `null` when none does. -/
theorem computeHoursHistogram_getD (prs : List PRRecord) (off : Int) (j : Nat) (hj : j < 24) :
    (computeHoursHistogram prs off).getD j none =
      (if binCount prs off j = 0 then none else some (binCount prs off j)) := by
  unfold computeHoursHistogram
  rw [hist_foldl_getD off prs (List.replicate 24 none) (by simp) j hj]
  have hrep : (List.replicate 24 (none : Option Int)).getD j none = none := by
    rw [List.getD_eq_getElem?_getD, List.getElem?_replicate]
    simp [hj]
  rw [hrep]
  unfold mergeBin
  by_cases h : binCount prs off j = 0 <;> simp [h]

/-! ## Facts about the weight accumulation and normalization -/

theorem sum_map_div (l : List Rat) (t : Rat) : (l.map (· / t)).sum = l.sum / t := by
  induction l with
  | nil => simp
  | cons a l ih => simp [ih, add_div]

theorem mapAdd_snd_sum (m : List (String × Rat)) (k : String) (w : Rat) :
    ((mapAdd m k w).map Prod.snd).sum = (m.map Prod.snd).sum + w := by
  induction m with
  | nil => simp [mapAdd]
  | cons p rest ih =>
    obtain ⟨k', w'⟩ := p
    by_cases h : k' = k
    · simp only [mapAdd, if_pos h, List.map_cons, List.sum_cons]
      ring
    · simp only [mapAdd, if_neg h, List.map_cons, List.sum_cons, ih]
      ring

theorem mapAdd_pos (m : List (String × Rat)) (k : String) (w : Rat)
    (hm : ∀ q ∈ m, 0 < q.2) (hw : 0 < w) : ∀ q ∈ mapAdd m k w, 0 < q.2 := by
  induction m with
  | nil =>
    intro q hq
    simp only [mapAdd, List.mem_singleton] at hq
    simp [hq, hw]
  | cons p rest ih =>
    obtain ⟨k', w'⟩ := p
    intro q hq
    by_cases h : k' = k
    · simp only [mapAdd, if_pos h, List.mem_cons] at hq
      rcases hq with hq | hq
      · have h1 : 0 < w' := hm (k', w') (by simp)
        simp [hq]
        positivity
      · exact hm q (by simp [hq])
    · simp only [mapAdd, if_neg h, List.mem_cons] at hq
      rcases hq with hq | hq
      · exact hm q (by simp [hq])
      · exact ih (fun q hq => hm q (by simp [hq])) q hq

theorem mapAdd_ne_nil (m : List (String × Rat)) (k : String) (w : Rat) :
    mapAdd m k w ≠ [] := by
  cases m with
  | nil => simp [mapAdd]
  | cons p rest =>
    obtain ⟨k', w'⟩ := p
    by_cases h : k' = k <;> simp [mapAdd, h]

theorem mapAdd_fst_mem (m : List (String × Rat)) (k : String) (w : Rat) (k' : String) :
    k' ∈ (mapAdd m k w).map Prod.fst ↔ k' ∈ m.map Prod.fst ∨ k' = k := by
  induction m with
  | nil => simp [mapAdd, eq_comm]
  | cons p rest ih =>
    obtain ⟨k0, w0⟩ := p
    by_cases h : k0 = k
    · subst h
      rw [show mapAdd ((k0, w0) :: rest) k0 w = (k0, w0 + w) :: rest by simp [mapAdd]]
      simp only [List.map_cons, List.mem_cons]
      tauto
    · simp only [mapAdd, if_neg h, List.map_cons, List.mem_cons, ih]
      tauto

theorem foldl_mapAdd_snd_sum (ps : List (String × Rat)) :
    ∀ m, (((ps.foldl (fun m p => mapAdd m p.1 p.2) m)).map Prod.snd).sum
      = (m.map Prod.snd).sum + (ps.map Prod.snd).sum := by
  induction ps with
  | nil => simp
  | cons p rest ih =>
    intro m
    rw [List.foldl_cons, ih, mapAdd_snd_sum]
    simp only [List.map_cons, List.sum_cons]
    ring

theorem foldl_mapAdd_pos (ps : List (String × Rat)) :
    ∀ m, (∀ q ∈ m, 0 < q.2) → (∀ q ∈ ps, 0 < q.2) →
      ∀ q ∈ ps.foldl (fun m p => mapAdd m p.1 p.2) m, 0 < q.2 := by
  induction ps with
  | nil => intro m hm _ q hq; exact hm q hq
  | cons p rest ih =>
    intro m hm hps q hq
    rw [List.foldl_cons] at hq
    exact ih (mapAdd m p.1 p.2)
      (mapAdd_pos m p.1 p.2 hm (hps p (by simp)))
      (fun q hq => hps q (by simp [hq])) q hq

theorem foldl_mapAdd_ne_nil (ps : List (String × Rat)) :
    ∀ m, m ≠ [] → ps.foldl (fun m p => mapAdd m p.1 p.2) m ≠ [] := by
  induction ps with
  | nil => intro m hm; simpa using hm
  | cons p rest ih =>
    intro m _
    rw [List.foldl_cons]
    exact ih _ (mapAdd_ne_nil m p.1 p.2)

theorem foldl_mapAdd_fst_mem (ps : List (String × Rat)) :
    ∀ m k', k' ∈ (ps.foldl (fun m p => mapAdd m p.1 p.2) m).map Prod.fst ↔
      k' ∈ m.map Prod.fst ∨ k' ∈ ps.map Prod.fst := by
  induction ps with
  | nil => simp
  | cons p rest ih =>
    intro m k'
    rw [List.foldl_cons, ih, mapAdd_fst_mem]
    simp only [List.map_cons, List.mem_cons]
    tauto

theorem accumWeights_snd_sum (ps : List (String × Rat)) :
    ((accumWeights ps).map Prod.snd).sum = (ps.map Prod.snd).sum := by
  unfold accumWeights
  rw [foldl_mapAdd_snd_sum]
  simp

theorem accumWeights_pos (ps : List (String × Rat)) (hps : ∀ q ∈ ps, 0 < q.2) :
    ∀ q ∈ accumWeights ps, 0 < q.2 :=
  foldl_mapAdd_pos ps [] (by simp) hps

theorem accumWeights_ne_nil (ps : List (String × Rat)) (hne : ps ≠ []) :
    accumWeights ps ≠ [] := by
  unfold accumWeights
  cases ps with
  | nil => exact absurd rfl hne
  | cons p rest =>
    rw [List.foldl_cons]
    exact foldl_mapAdd_ne_nil rest _ (mapAdd_ne_nil [] p.1 p.2)

theorem accumWeights_fst_mem (ps : List (String × Rat)) (k' : String) :
    k' ∈ (accumWeights ps).map Prod.fst ↔ k' ∈ ps.map Prod.fst := by
  unfold accumWeights
  rw [foldl_mapAdd_fst_mem]
  simp

theorem normalizeWeights_nil : normalizeWeights [] = [] := rfl


theorem normalizeWeights_sum_pos (entries : List (String × Rat)) (hne : entries ≠ [])
    (hpos : ∀ p ∈ entries, 0 < p.2) : 0 < (entries.map Prod.snd).sum := by
  apply List.sum_pos
  · intro a ha
    obtain ⟨p, hp, rfl⟩ := List.mem_map.mp ha
    exact hpos p hp
  · simpa using hne

theorem normalizeWeights_perm (entries : List (String × Rat)) :
    (normalizeWeights entries).Perm
      (entries.map fun e =>
        (e.1, e.2 / (if (entries.map Prod.snd).sum = 0 then 1 else (entries.map Prod.snd).sum))) := by
  unfold normalizeWeights
  exact List.perm_insertionSort _ _

theorem normalizeWeights_snd_sum (entries : List (String × Rat)) (hne : entries ≠ [])
    (hpos : ∀ p ∈ entries, 0 < p.2) :
    ((normalizeWeights entries).map Prod.snd).sum = 1 := by
  have hsumpos := normalizeWeights_sum_pos entries hne hpos
  have hperm := (normalizeWeights_perm entries).map Prod.snd
  rw [hperm.sum_eq, if_neg (ne_of_gt hsumpos), List.map_map]
  have hmap : (Prod.snd ∘ fun e : String × Rat => (e.1, e.2 / (entries.map Prod.snd).sum))
      = (fun q : Rat => q / (entries.map Prod.snd).sum) ∘ Prod.snd := rfl
  rw [hmap, ← List.map_map]
  rw [show (fun q : Rat => q / (entries.map Prod.snd).sum)
      = (· / (entries.map Prod.snd).sum) from rfl]
  rw [sum_map_div]
  exact div_self (ne_of_gt hsumpos)

theorem normalizeWeights_mem_bounds (entries : List (String × Rat)) (hne : entries ≠ [])
    (hpos : ∀ p ∈ entries, 0 < p.2) :
    ∀ p ∈ normalizeWeights entries, 0 < p.2 ∧ p.2 ≤ 1 := by
  intro p hp
  have hsumpos := normalizeWeights_sum_pos entries hne hpos
  have hperm := normalizeWeights_perm entries
  rw [hperm.mem_iff, if_neg (ne_of_gt hsumpos)] at hp
  obtain ⟨e, he, rfl⟩ := List.mem_map.mp hp
  have hpe := hpos e he
  constructor
  · exact div_pos hpe hsumpos
  · rw [div_le_one hsumpos]
    exact List.single_le_sum
      (fun q hq => by
        obtain ⟨p', hp', rfl⟩ := List.mem_map.mp hq
        exact le_of_lt (hpos p' hp'))
      e.2 (List.mem_map.mpr ⟨e, he, rfl⟩)

theorem normalizeWeights_fst_mem (entries : List (String × Rat)) (k : String) :
    k ∈ (normalizeWeights entries).map Prod.fst ↔ k ∈ entries.map Prod.fst := by
  have hperm := (normalizeWeights_perm entries).map Prod.fst
  rw [hperm.mem_iff, List.map_map]
  constructor
  · rintro h
    obtain ⟨e, he, rfl⟩ := List.mem_map.mp h
    exact List.mem_map.mpr ⟨e, he, rfl⟩
  · rintro h
    obtain ⟨e, he, rfl⟩ := List.mem_map.mp h
    exact List.mem_map.mpr ⟨e, he, rfl⟩

/-! ## Claim theorems -/

/-- Claim C9: `parseTimezoneOffset` resolves "Asia/Shanghai" to +480 minutes,
"+09:30" to +570 minutes, an absent override to 0, and every unrecognized
string (no regex match, not the hardcoded IANA name) to 0, without error. -/
theorem claim_C9_parse_timezone :
    parseTimezoneOffset none = 0 ∧
    parseTimezoneOffset (some ("Asia/Shanghai")) = 480 ∧
    parseTimezoneOffset (some ("+09:30")) = 570 ∧
    (∀ s : String, offsetMatch s = none → s ≠ "Asia/Shanghai" →
      parseTimezoneOffset (some s) = 0) := by
  refine ⟨rfl, by decide, by decide, ?_⟩
  intro s hm hne
  by_cases he : s = ""
  · simp [parseTimezoneOffset, he]
  · simp [parseTimezoneOffset, he, hm, hne]

/-- Witness for C9 at the concrete unrecognized string "invalid". -/
theorem claim_C9_parse_timezone_witness :
    offsetMatch ("invalid") = none ∧ ("invalid" : String) ≠ "Asia/Shanghai" ∧
      parseTimezoneOffset (some ("invalid")) = 0 :=
  ⟨by decide, by decide,
    claim_C9_parse_timezone.2.2.2 ("invalid") (by decide) (by decide)⟩

theorem countP_not_add_countP (p : PRRecord → Prop) [DecidablePred p] (prs : List PRRecord) :
    prs.countP (fun pr => decide (¬p pr)) + prs.countP (fun pr => decide (p pr)) =
      prs.length := by
  induction prs with
  | nil => simp
  | cons pr rest ih =>
    simp only [List.countP_cons, List.length_cons, decide_not] at ih ⊢
    by_cases h : p pr
    · simp [h]
      omega
    · simp [h]
      omega

/-- Claim C7: `computeUoi` is null iff the PR list is empty and otherwise
external/(external+self) ∈ [0,1] (owners compared case-insensitively);
`computeExternalPrAcceptRate` is null iff there is no external PR and
otherwise merged-external/total-external ∈ [0,1]; and on the concrete 3-PR
input (1 own, 2 external with 1 merged), UOI = 2/3 and the accept rate
= 1/2. -/
theorem claim_C7_uoi_accept_rate :
    (∀ (prs : List PRRecord) (login : String),
      (computeUoi prs login = none ↔ prs = []) ∧
      (∀ q, computeUoi prs login = some q → 0 ≤ q ∧ q ≤ 1)) ∧
    (∀ (prs : List PRRecord) (login : String),
      (computeExternalPrAcceptRate prs login = none ↔ ∀ pr ∈ prs, isSelfPr login pr) ∧
      (∀ q, computeExternalPrAcceptRate prs login = some q → 0 ≤ q ∧ q ≤ 1)) ∧
    computeUoi
      [⟨none, false, ("me")⟩, ⟨none, true, ("other")⟩, ⟨none, false, ("second")⟩]
      ("me") = some (2 / 3) ∧
    computeExternalPrAcceptRate
      [⟨none, false, ("me")⟩, ⟨none, true, ("other")⟩, ⟨none, false, ("second")⟩]
      ("me") = some (1 / 2) := by
  refine ⟨?_, ?_, ?_, ?_⟩
  · intro prs login
    have hlen := countP_not_add_countP (isSelfPr login) prs
    constructor
    · simp only [computeUoi]
      split
      · rename_i h
        have hz : prs.length = 0 := by omega
        simp [List.length_eq_zero.mp hz]
      · rename_i h
        constructor
        · intro hsome
          simp at hsome
        · intro hnil
          subst hnil
          simp at h
    · intro q hq
      simp only [computeUoi] at hq
      split at hq
      · exact absurd hq (by simp)
      · rename_i h
        injection hq with hq
        subst hq
        have hpos : 0 < (prs.countP (fun pr => decide (¬isSelfPr login pr)) +
            prs.countP (fun pr => decide (isSelfPr login pr))) := by omega
        constructor
        · positivity
        · rw [div_le_one (by exact_mod_cast hpos)]
          have : prs.countP (fun pr => decide (¬isSelfPr login pr)) ≤
              prs.countP (fun pr => decide (¬isSelfPr login pr)) +
              prs.countP (fun pr => decide (isSelfPr login pr)) := by omega
          exact_mod_cast this
  · intro prs login
    constructor
    · simp only [computeExternalPrAcceptRate]
      split
      · rename_i h
        constructor
        · intro _ pr hpr
          have := List.countP_eq_zero.mp h pr hpr
          simpa using this
        · intro _
          rfl
      · rename_i h
        constructor
        · intro hsome
          simp at hsome
        · intro hall
          have : prs.countP (fun pr => decide (¬isSelfPr login pr)) = 0 :=
            List.countP_eq_zero.mpr (fun pr hpr => by simpa using hall pr hpr)
          exact absurd this h
    · intro q hq
      simp only [computeExternalPrAcceptRate] at hq
      split at hq
      · exact absurd hq (by simp)
      · rename_i h
        injection hq with hq
        subst hq
        have hle : prs.countP (fun pr => decide (¬isSelfPr login pr) && pr.mergedAt) ≤
            prs.countP (fun pr => decide (¬isSelfPr login pr)) := by
          apply List.countP_mono_left
          intro pr _ hpr
          exact (Bool.and_elim_left hpr)
        have hpos : 0 < prs.countP (fun pr => decide (¬isSelfPr login pr)) :=
          Nat.pos_of_ne_zero h
        constructor
        · positivity
        · rw [div_le_one (by exact_mod_cast hpos)]
          exact_mod_cast hle
  · have hs : List.countP (fun pr => decide (isSelfPr ("me") pr))
        [⟨none, false, ("me")⟩, ⟨none, true, ("other")⟩, ⟨none, false, ("second")⟩] = 1 := by
      decide
    have he : List.countP (fun pr => decide (¬isSelfPr ("me") pr))
        [⟨none, false, ("me")⟩, ⟨none, true, ("other")⟩, ⟨none, false, ("second")⟩] = 2 := by
      decide
    unfold computeUoi
    rw [hs, he]
    norm_num
  · have he : List.countP (fun pr => decide (¬isSelfPr ("me") pr))
        [⟨none, false, ("me")⟩, ⟨none, true, ("other")⟩, ⟨none, false, ("second")⟩] = 2 := by
      decide
    have hm : List.countP (fun pr => decide (¬isSelfPr ("me") pr) && pr.mergedAt)
        [⟨none, false, ("me")⟩, ⟨none, true, ("other")⟩, ⟨none, false, ("second")⟩] = 1 := by
      decide
    unfold computeExternalPrAcceptRate
    rw [he, hm]
    norm_num

/-- Claim C8: `computeNightRatio` uses exactly the non-merge commits with a
parseable author timestamp as its sample, is null exactly when that sample is
0, otherwise returns night-count / sample with the night window
`{22, 23, 0, 1, 2, 3, 4}` of the local hour (see `isNightCommit`); in
particular a commit list of only merge commits yields `{value: null,
sample_size: 0}`. -/
theorem claim_C8_night_ratio :
    (∀ (commits : Option (List CommitRecord)) (off : Int),
      (computeNightRatio commits off).sample_size =
        (commits.getD []).countP (fun c => decide (countsForNight c)) ∧
      ((computeNightRatio commits off).value = none ↔
        (commits.getD []).countP (fun c => decide (countsForNight c)) = 0) ∧
      (∀ q, (computeNightRatio commits off).value = some q →
        q = (((commits.getD []).countP fun c => decide (isNightCommit c off)) : Rat) /
            (((commits.getD []).countP fun c => decide (countsForNight c)) : Rat))) ∧
    (∀ (commits : List CommitRecord) (off : Int), (∀ c ∈ commits, c.isMerge = true) →
      computeNightRatio (some commits) off = ⟨none, 0⟩) := by
  refine ⟨?_, ?_⟩
  · intro commits off
    simp only [computeNightRatio]
    split
    · rename_i h
      refine ⟨h.symm, by simp [h], ?_⟩
      intro q hq
      simp at hq
    · rename_i h
      refine ⟨rfl, by simp [h], ?_⟩
      intro q hq
      simp only [Option.some.injEq] at hq
      exact hq.symm
  · intro commits off hall
    have hz : commits.countP (fun c => decide (countsForNight c)) = 0 := by
      apply List.countP_eq_zero.mpr
      intro c hc
      simp [countsForNight, hall c hc]
    simp only [computeNightRatio, Option.getD_some]
    rw [if_pos hz]

/-- Claim C1: every ratio metric's value is null exactly when its sample size
is 0 — `computeFocusRatio`, `computeNightRatio`, `computeUniIndexV0` and
`computeCommunityEngagement`; in particular a Uni-Index input of only
non-own-repository commits and no PRs yields null value AND sample size 0. -/
theorem claim_C1_null_iff_sample_zero :
    (∀ repos : List RepoRecord,
      ((computeFocusRatio repos).value = none ↔ (computeFocusRatio repos).sample_size = 0)) ∧
    (∀ (commits : Option (List CommitRecord)) (off : Int),
      ((computeNightRatio commits off).value = none ↔
        (computeNightRatio commits off).sample_size = 0)) ∧
    (∀ (prs : List PRRecord) (commits : Option (List CommitRecord)) (login : String)
      (ui : Option UserInfo) (inc : Bool),
      ((computeUniIndexV0 prs commits login ui inc).value = none ↔
        (computeUniIndexV0 prs commits login ui inc).sample_size = 0)) ∧
    (∀ c : Option ContributionsSummary,
      ((computeCommunityEngagement c).value = none ↔
        (computeCommunityEngagement c).sample_size = 0)) ∧
    (∀ (prs : List PRRecord) (commits : List CommitRecord) (login : String)
      (ui : Option UserInfo) (inc : Bool),
      (∀ cm ∈ commits, cm.repo.isOwn = false) → prs = [] →
      (computeUniIndexV0 prs (some commits) login ui inc).value = none ∧
      (computeUniIndexV0 prs (some commits) login ui inc).sample_size = 0) := by
  refine ⟨?_, ?_, ?_, ?_, ?_⟩
  · intro repos
    simp only [computeFocusRatio]
    split
    · simp
    · rename_i h
      simp [h]
  · intro commits off
    simp only [computeNightRatio]
    split
    · rename_i h
      simp
    · rename_i h
      simp [h]
  · intro prs commits login ui inc
    unfold computeUniIndexV0
    generalize (if inc then ((ui.map (·.organizations)).getD []).map jsToLower else []) = orgs
    simp only [uniIndexWith]
    split
    · simp
    · rename_i h
      simp only
      constructor
      · intro hs
        simp at hs
      · intro hlen
        exfalso
        apply h
        have h1 : (commits.getD []).length = 0 := by omega
        have h2 : prs.length = 0 := by omega
        rw [List.length_eq_zero.mp h1, List.length_eq_zero.mp h2] at h ⊢
        simp
  · intro c
    cases c with
    | none => simp [computeCommunityEngagement]
    | some s =>
      simp only [computeCommunityEngagement]
      split
      · rename_i h
        simp
      · rename_i h
        simp [h]
  · intro prs commits login ui inc hown hprs
    subst hprs
    have hcnt : commits.countP (fun c => c.repo.isOwn) = 0 := by
      apply List.countP_eq_zero.mpr
      intro c hc
      simp [hown c hc]
    unfold computeUniIndexV0
    generalize (if inc then ((ui.map (·.organizations)).getD []).map jsToLower else []) = orgs
    simp only [uniIndexWith, Option.getD_some]
    rw [if_pos (by simp [hcnt])]
    exact ⟨rfl, rfl⟩

/-- Witness for C1 at concrete inputs exercising each hypothesis: one
non-own commit and no PRs give the Uni Index a null value and sample 0. -/
theorem claim_C1_null_iff_sample_zero_witness :
    (computeUniIndexV0 [] (some [⟨⟨("up"), ("r"), false⟩, some 0, false, []⟩])
      ("me") none true).value = none ∧
    (computeUniIndexV0 [] (some [⟨⟨("up"), ("r"), false⟩, some 0, false, []⟩])
      ("me") none true).sample_size = 0 :=
  claim_C1_null_iff_sample_zero.2.2.2.2 [] [⟨⟨("up"), ("r"), false⟩, some 0, false, []⟩]
    ("me") none true (by intro cm hcm; simp at hcm; simp [hcm]) rfl

/-- Witness for C8: a single merge commit yields sample 0 and null value. -/
theorem claim_C8_night_ratio_witness :
    computeNightRatio (some [⟨⟨("me"), ("r"), true⟩, some 100, true, []⟩]) 0 = ⟨none, 0⟩ :=
  claim_C8_night_ratio.2 [⟨⟨("me"), ("r"), true⟩, some 100, true, []⟩] 0
    (by intro c hc; simp at hc; simp [hc])

/-! ## Partition counting and fork-map size -/

theorem countP_split {α : Type} (f g : α → Bool) (l : List α) :
    l.countP f + l.countP (fun x => !f x && g x) + l.countP (fun x => !f x && !g x) =
      l.length := by
  induction l with
  | nil => simp
  | cons x rest ih =>
    cases hf : f x <;> cases hg : g x <;>
      simp [List.countP_cons, hf, hg] <;> omega

theorem mapSet_fst_of_not_mem {β : Type} (m : List (String × β)) (k : String) (v : β)
    (h : k ∉ m.map Prod.fst) : (mapSet m k v).map Prod.fst = m.map Prod.fst ++ [k] := by
  induction m with
  | nil => simp [mapSet]
  | cons p rest ih =>
    obtain ⟨k0, v0⟩ := p
    simp only [List.map_cons, List.mem_cons] at h
    push_neg at h
    simp only [mapSet, if_neg (Ne.symm h.1), List.map_cons, List.cons_append,
      List.cons.injEq, true_and]
    exact ih h.2

theorem foldl_mapSet_length {α β : Type} (key : α → String) (val : α → β)
    (items : List α) :
    ∀ m : List (String × β), (m.map Prod.fst ++ items.map key).Nodup →
      (items.foldl (fun m x => mapSet m (key x) (val x)) m).length =
        m.length + items.length := by
  induction items with
  | nil => intro m _; simp
  | cons x rest ih =>
    intro m hn
    rw [List.foldl_cons]
    have hnotmem : key x ∉ m.map Prod.fst := by
      intro hmem
      have := List.disjoint_of_nodup_append hn
      exact this hmem (by simp)
    have hfst := mapSet_fst_of_not_mem m (key x) (val x) hnotmem
    have hlen : (mapSet m (key x) (val x)).length = m.length + 1 := by
      have := congrArg List.length hfst
      simpa using this
    have hn' : ((mapSet m (key x) (val x)).map Prod.fst ++ rest.map key).Nodup := by
      rw [hfst, List.append_assoc]
      simpa using hn
    rw [ih _ hn', hlen]
    simp only [List.length_cons]
    omega

theorem mapUpdate_length {β : Type} (m : List (String × β)) (k : String) (f : β → β) :
    (mapUpdate m k f).length = m.length := by
  induction m with
  | nil => simp [mapUpdate]
  | cons p rest ih =>
    obtain ⟨k0, v0⟩ := p
    by_cases h : k0 = k <;> simp [mapUpdate, h, ih]

theorem foldl_mapUpdate_length {α β : Type} (key : α → String) (f : α → β → β)
    (items : List α) :
    ∀ m : List (String × β),
      (items.foldl (fun m x => mapUpdate m (key x) (f x)) m).length = m.length := by
  induction items with
  | nil => intro m; simp
  | cons x rest ih =>
    intro m
    rw [List.foldl_cons, ih, mapUpdate_length]

/-- Claim C2 (amended): `computeGritFactor`'s three classification counts sum
to its sample size for every repository list; `computeForkDestiny`'s three
fork classes sum to the number of distinct owned forks — equal to
`total_forks` whenever the owned forks have pairwise distinct (lower-cased)
`owner/name` keys, but not in general (see the counterexample, where a
duplicated fork entry is deduplicated by the fork map). -/
theorem claim_C2_classification_sums :
    (∀ (repos : List RepoRecord) (login : String),
      (computeGritFactor repos login).long_term_count +
        (computeGritFactor repos login).gem_count +
        (computeGritFactor repos login).churn_count =
        (computeGritFactor repos login).sample_size) ∧
    (∀ (repos : List RepoRecord) (commits : Option (List CommitRecord)) (login : String),
      ((repos.filter fun r => decide (isOwnedFork login r)).map
        (fun r => forkKey r.owner r.name)).Nodup →
      (computeForkDestiny repos commits login).contributor_forks +
        (computeForkDestiny repos commits login).variant_forks +
        (computeForkDestiny repos commits login).noise_forks =
        (computeForkDestiny repos commits login).total_forks) := by
  constructor
  · intro repos login
    simp only [computeGritFactor]
    split
    · simp
    · rename_i h
      have hgem : (fun r : RepoRecord => decide (isGemRepo r)) =
          fun r => !decide (isLongTermRepo r) && decide (5 ≤ r.stargazerCount) := by
        funext r
        by_cases h1 : isLongTermRepo r <;> by_cases h2 : 5 ≤ r.stargazerCount <;>
          simp [isGemRepo, h1, h2]
      have hchurn : (fun r : RepoRecord => decide (¬isLongTermRepo r ∧ ¬isGemRepo r)) =
          fun r => !decide (isLongTermRepo r) && !decide (5 ≤ r.stargazerCount) := by
        funext r
        by_cases h1 : isLongTermRepo r <;> by_cases h2 : 5 ≤ r.stargazerCount <;>
          simp [isGemRepo, h1, h2]
      show (List.filter _ repos).countP _ + (List.filter _ repos).countP _ +
        (List.filter _ repos).countP _ = (List.filter _ repos).length
      rw [hgem, hchurn]
      exact countP_split _ _ _
  · intro repos commits login hnodup
    simp only [computeForkDestiny]
    split
    · simp
    · rename_i h
      show (List.map Prod.snd _).countP _ + (List.map Prod.snd _).countP _ +
        (List.map Prod.snd _).countP _ = (List.filter _ repos).length
      rw [countP_split (fun i : ForkInfo => i.hasMergedExternalPr)
        (fun i => isVariantFork i), List.length_map, foldl_mapUpdate_length,
        foldl_mapSet_length _ _ _ [] (by simpa using hnodup)]
      simp

/-- Counterexample to C2 as stated: the same owned fork listed twice gives
`total_forks = 2` but classification counts summing to 1 (the fork map
deduplicates by `owner/name`). -/
theorem claim_C2_counterexample :
    (computeForkDestiny
        [⟨("r"), ("me"), true, 0, none, none, none, none, none⟩,
         ⟨("r"), ("me"), true, 0, none, none, none, none, none⟩] none ("me")).total_forks = 2 ∧
    (computeForkDestiny
        [⟨("r"), ("me"), true, 0, none, none, none, none, none⟩,
         ⟨("r"), ("me"), true, 0, none, none, none, none, none⟩] none ("me")).contributor_forks +
      (computeForkDestiny
        [⟨("r"), ("me"), true, 0, none, none, none, none, none⟩,
         ⟨("r"), ("me"), true, 0, none, none, none, none, none⟩] none ("me")).variant_forks +
      (computeForkDestiny
        [⟨("r"), ("me"), true, 0, none, none, none, none, none⟩,
         ⟨("r"), ("me"), true, 0, none, none, none, none, none⟩] none ("me")).noise_forks = 1 := by
  decide

/-- Witness for C2 (amended) at a one-fork input with distinct keys. -/
theorem claim_C2_classification_sums_witness :
    ((([⟨("r"), ("me"), true, 0, none, none, none, none, none⟩] : List RepoRecord).filter
        fun r => decide (isOwnedFork ("me") r)).map
        (fun r => forkKey r.owner r.name)).Nodup ∧
    (computeForkDestiny [⟨("r"), ("me"), true, 0, none, none, none, none, none⟩]
        none ("me")).contributor_forks +
      (computeForkDestiny [⟨("r"), ("me"), true, 0, none, none, none, none, none⟩]
        none ("me")).variant_forks +
      (computeForkDestiny [⟨("r"), ("me"), true, 0, none, none, none, none, none⟩]
        none ("me")).noise_forks =
      (computeForkDestiny [⟨("r"), ("me"), true, 0, none, none, none, none, none⟩]
        none ("me")).total_forks :=
  ⟨by decide,
    claim_C2_classification_sums.2 [⟨("r"), ("me"), true, 0, none, none, none, none, none⟩]
      none ("me") (by decide)⟩

/-- Witness for C7: the bounds applied at the concrete 3-PR input, whose UOI
the theorem itself computes as 2/3. -/
theorem claim_C7_uoi_accept_rate_witness :
    (0 : Rat) ≤ 2 / 3 ∧ (2 / 3 : Rat) ≤ 1 :=
  (claim_C7_uoi_accept_rate.1
      [⟨none, false, ("me")⟩, ⟨none, true, ("other")⟩, ⟨none, false, ("second")⟩]
      ("me")).2 (2 / 3) claim_C7_uoi_accept_rate.2.2.1

theorem starWeight_pos (lg : Nat → Rat) (s : Nat) : 0 < starWeight lg s := by
  unfold starWeight
  show 0 < if 0 < lg s then lg s else 1
  split
  · assumption
  · norm_num

theorem langContribs_pos (lg : Nat → Rat) (repos : List RepoRecord) :
    ∀ p ∈ langContribs lg repos, 0 < p.2 := by
  intro p hp
  obtain ⟨r, _, hr⟩ := List.mem_filterMap.mp hp
  obtain ⟨L, _, hgl⟩ := Option.map_eq_some'.mp hr
  rw [← hgl]
  exact starWeight_pos lg r.stargazerCount

theorem topicContribs_pos (lg : Nat → Rat) (repos : List RepoRecord) :
    ∀ p ∈ topicContribs lg repos, 0 < p.2 := by
  intro p hp
  obtain ⟨r, _, hr⟩ := List.mem_flatMap.mp hp
  cases hT : r.repositoryTopics with
  | none => rw [hT] at hr; simp at hr
  | some topics =>
    rw [hT] at hr
    simp only at hr
    split at hr
    · simp at hr
    · rename_i hw
      obtain ⟨t, _, ht⟩ := List.mem_map.mp hr
      rw [← ht]
      simpa using lt_of_not_ge hw

/-- Claim C3: over any input with language data the language-weight vector
sums to 1 with every weight in (0, 1], and likewise for the topic weights
over inputs with a contributing repository (topic data present and positive
star weight); with no contributing repository both calculators return the
empty list.  Quantified over every model `lg` of `Math.log1p`. -/
theorem claim_C3_weight_normalization :
    (∀ (lg : Nat → Rat) (repos : List RepoRecord),
      ((∃ r ∈ repos, r.primaryLanguage ≠ none) →
        ((computeLanguageWeights lg repos).map Prod.snd).sum = 1 ∧
        ∀ p ∈ computeLanguageWeights lg repos, 0 < p.2 ∧ p.2 ≤ 1) ∧
      ((∀ r ∈ repos, r.primaryLanguage = none) → computeLanguageWeights lg repos = [])) ∧
    (∀ (lg : Nat → Rat) (repos : List RepoRecord),
      ((∃ r ∈ repos, r.repositoryTopics.getD [] ≠ [] ∧ 0 < lg r.stargazerCount) →
        ((computeTopicWeights lg repos).map Prod.snd).sum = 1 ∧
        ∀ p ∈ computeTopicWeights lg repos, 0 < p.2 ∧ p.2 ≤ 1) ∧
      ((∀ r ∈ repos, r.repositoryTopics.getD [] = [] ∨ lg r.stargazerCount ≤ 0) →
        computeTopicWeights lg repos = [])) := by
  constructor
  · intro lg repos
    constructor
    · rintro ⟨r, hr, hlang⟩
      obtain ⟨L, hL⟩ := Option.ne_none_iff_exists'.mp hlang
      have hmem : (L, starWeight lg r.stargazerCount) ∈ langContribs lg repos :=
        List.mem_filterMap.mpr ⟨r, hr, by rw [hL]; rfl⟩
      have hne : langContribs lg repos ≠ [] := List.ne_nil_of_mem hmem
      have hane := accumWeights_ne_nil _ hne
      have hapos := accumWeights_pos _ (langContribs_pos lg repos)
      exact ⟨normalizeWeights_snd_sum _ hane hapos,
        normalizeWeights_mem_bounds _ hane hapos⟩
    · intro hall
      have hnil : langContribs lg repos = [] := by
        apply List.filterMap_eq_nil_iff.mpr
        intro r hr
        rw [hall r hr]
        rfl
      unfold computeLanguageWeights
      rw [hnil]
      rfl
  · intro lg repos
    constructor
    · rintro ⟨r, hr, htop, hw⟩
      cases hT : r.repositoryTopics with
      | none => rw [hT] at htop; simp at htop
      | some topics =>
        rw [hT] at htop
        simp only [Option.getD_some] at htop
        obtain ⟨t, ts, rfl⟩ := List.exists_cons_of_ne_nil htop
        have hmem : (t, lg r.stargazerCount) ∈ topicContribs lg repos := by
          apply List.mem_flatMap.mpr
          refine ⟨r, hr, ?_⟩
          rw [hT]
          simp only
          rw [if_neg (not_le.mpr hw)]
          simp
        have hne : topicContribs lg repos ≠ [] := List.ne_nil_of_mem hmem
        have hane := accumWeights_ne_nil _ hne
        have hapos := accumWeights_pos _ (topicContribs_pos lg repos)
        exact ⟨normalizeWeights_snd_sum _ hane hapos,
          normalizeWeights_mem_bounds _ hane hapos⟩
    · intro hall
      have hnil : topicContribs lg repos = [] := by
        apply List.flatMap_eq_nil_iff.mpr
        intro r hr
        rcases hall r hr with h | h
        · cases hT : r.repositoryTopics with
          | none => rfl
          | some topics =>
            rw [hT] at h
            simp only [Option.getD_some] at h
            subst h
            simp only
            split <;> simp
        · cases hT : r.repositoryTopics with
          | none => rfl
          | some topics =>
            simp only
            rw [if_pos h]
      unfold computeTopicWeights
      rw [hnil]
      rfl

/-- Witness for C3 at concrete inputs: a zero-star TypeScript repository for
the language side, a 3-star repository with one topic for the topic side. -/
theorem claim_C3_weight_normalization_witness :
    (∃ r ∈ ([⟨("a"), ("me"), false, 0, some ("TypeScript"), none, none, none, none⟩] :
        List RepoRecord), r.primaryLanguage ≠ none) ∧
    ((computeLanguageWeights lgLin
        [⟨("a"), ("me"), false, 0, some ("TypeScript"), none, none, none, none⟩]).map
      Prod.snd).sum = 1 ∧
    (∃ r ∈ ([⟨("b"), ("me"), false, 3, none, none, some [("web")], none, none⟩] :
        List RepoRecord), r.repositoryTopics.getD [] ≠ [] ∧ 0 < lgLin r.stargazerCount) ∧
    ((computeTopicWeights lgLin
        [⟨("b"), ("me"), false, 3, none, none, some [("web")], none, none⟩]).map
      Prod.snd).sum = 1 := by
  have h1 : ∃ r ∈ ([⟨("a"), ("me"), false, 0, some ("TypeScript"), none, none, none, none⟩] :
      List RepoRecord), r.primaryLanguage ≠ none := by simp
  have h2 : ∃ r ∈ ([⟨("b"), ("me"), false, 3, none, none, some [("web")], none, none⟩] :
      List RepoRecord), r.repositoryTopics.getD [] ≠ [] ∧ 0 < lgLin r.stargazerCount := by
    refine ⟨⟨("b"), ("me"), false, 3, none, none, some [("web")], none, none⟩,
      by simp, by simp, ?_⟩
    show (0 : Rat) < ((3 : Nat) : Rat)
    norm_num
  exact ⟨h1, ((claim_C3_weight_normalization.1 lgLin _).1 h1).1, h2,
    ((claim_C3_weight_normalization.2 lgLin _).1 h2).1⟩

/-- Claim C4 (amended): a zero-star repository with a language still
contributes to `computeLanguageWeights` (its `starWeight` is the minimum
weight 1 whenever `log1p` of its stars is ≤ 0, in particular at 0 stars);
`computeTopicWeights`, by contrast, skips every repository whose star weight
`log1p(stars)` is ≤ 0 — a zero-star repository contributes nothing to the
topic weights. -/
theorem claim_C4_zero_star_weights :
    (∀ (lg : Nat → Rat) (repos : List RepoRecord) (r : RepoRecord) (L : String),
      r ∈ repos → r.stargazerCount = 0 → r.primaryLanguage = some L →
      L ∈ (computeLanguageWeights lg repos).map Prod.fst) ∧
    (∀ (lg : Nat → Rat) (s : Nat), lg s ≤ 0 → starWeight lg s = 1) ∧
    (∀ (lg : Nat → Rat) (r : RepoRecord) (rest : List RepoRecord),
      lg r.stargazerCount ≤ 0 →
      computeTopicWeights lg (r :: rest) = computeTopicWeights lg rest) := by
  refine ⟨?_, ?_, ?_⟩
  · intro lg repos r L hr _ hL
    unfold computeLanguageWeights
    rw [normalizeWeights_fst_mem, accumWeights_fst_mem]
    apply List.mem_map.mpr
    refine ⟨(L, starWeight lg r.stargazerCount), ?_, rfl⟩
    exact List.mem_filterMap.mpr ⟨r, hr, by rw [hL]; rfl⟩
  · intro lg s h
    unfold starWeight
    show (if 0 < lg s then lg s else 1) = 1
    rw [if_neg (not_lt.mpr h)]
  · intro lg r rest h
    unfold computeTopicWeights topicContribs
    rw [List.flatMap_cons]
    have hr : (match r.repositoryTopics with
        | none => []
        | some topics =>
          let repoWeight := lg r.stargazerCount
          if repoWeight ≤ 0 then []
          else topics.map fun topic => (topic, repoWeight)) = ([] : List (String × Rat)) := by
      cases hT : r.repositoryTopics with
      | none => rfl
      | some topics =>
        simp only
        rw [if_pos h]
    rw [hr, List.nil_append]

/-- Counterexample to C4 as stated: a zero-star repository with the declared
topic tag "web" contributes nothing to `computeTopicWeights` (result `[]`,
with the tag absent), under the concrete `log1p` model `lgLin` (which, like
`Math.log1p`, is 0 at 0 stars). -/
theorem claim_C4_counterexample :
    lgLin 0 = 0 ∧
    computeTopicWeights lgLin
      [⟨("r"), ("me"), false, 0, none, none, some [("web")], none, none⟩] = [] := by
  constructor
  · rfl
  · decide

/-- Witness for C4 (amended): the zero-star TypeScript repository appears in
the language weights, its star weight is 1, and a zero-star topic repository
is skipped. -/
theorem claim_C4_zero_star_weights_witness :
    ("TypeScript" : String) ∈ (computeLanguageWeights lgLin
      [⟨("a"), ("me"), false, 0, some ("TypeScript"), none, none, none, none⟩]).map
        Prod.fst ∧
    starWeight lgLin 0 = 1 ∧
    computeTopicWeights lgLin
        (⟨("r"), ("me"), false, 0, none, none, some [("web")], none, none⟩ ::
          ([] : List RepoRecord)) =
      computeTopicWeights lgLin [] :=
  ⟨claim_C4_zero_star_weights.1 lgLin _
      ⟨("a"), ("me"), false, 0, some ("TypeScript"), none, none, none, none⟩
      ("TypeScript") (by simp) rfl rfl,
    claim_C4_zero_star_weights.2.1 lgLin 0 (by norm_num [lgLin]),
    claim_C4_zero_star_weights.2.2 lgLin
      ⟨("r"), ("me"), false, 0, none, none, some [("web")], none, none⟩ []
      (by norm_num [lgLin])⟩

/-- Counterexample to C5 as stated: a PR created at UTC 10:45 (minute-of-day
645) with timezone offset +30 minutes has true local time 11:15, so the claim
puts it in bin 11 — but the source adds the offset to the whole UTC hour
(`floor(10 + 0.5) = 10`), so bin 11 stays null and bin 10 holds the event. -/
theorem claim_C5_counterexample :
    trueLocalHour 645 30 = 11 ∧
    (computeHoursHistogram [⟨some 645, false, ("x")⟩] 30).getD 11 none = none ∧
    (computeHoursHistogram [⟨some 645, false, ("x")⟩] 30).getD 10 none = some 1 := by
  have hsrc : jsHourIndex 10 30 = 10 := by
    rw [jsHourIndex_eq_emod 10 30 (by norm_num)]
    decide
  have hut : getUTCHours 645 = 10 := rfl
  have hbc : ∀ j : Nat, binCount [⟨some 645, false, ("x")⟩] 30 j =
      if (10 : Int) = (j : Int) then 1 else 0 := by
    intro j
    simp [binCount, List.countP_cons, prAtBin, hut, hsrc]
  refine ⟨by decide, ?_, ?_⟩
  · rw [computeHoursHistogram_getD _ _ 11 (by norm_num), hbc 11]
    norm_num
  · rw [computeHoursHistogram_getD _ _ 10 (by norm_num), hbc 10]
    norm_num

/-- Claim C5 (amended): for every offset within the wrap-around guard
(≥ -4320 minutes, covering all offsets that arise in practice), each bin `j`
of `computeHoursHistogram` holds exactly the number of PRs with a parseable
timestamp whose bucket index is `j`, and stays null when there is none; the
bucket index applies the offset to the timestamp's WHOLE UTC hour —
`(utcHour + 72 + ⌊offset/60⌋) mod 24` — which coincides with the timestamp's
true local hour for whole-hour offsets, but can differ for fractional
offsets (see the counterexample). -/
theorem claim_C5_histogram_bins (prs : List PRRecord) (off : Int) (hoff : -4320 ≤ off) :
    (∀ j : Nat, j < 24 →
      (computeHoursHistogram prs off).getD j none =
        (if binCount prs off j = 0 then none else some (binCount prs off j))) ∧
    (∀ utcH : Nat, jsHourIndex utcH off = ((utcH : Int) + 72 + off / 60) % 24) ∧
    (∀ m : Nat, 60 ∣ off → jsHourIndex (getUTCHours m) off = trueLocalHour m off) := by
  refine ⟨?_, ?_, ?_⟩
  · intro j hj
    exact computeHoursHistogram_getD prs off j hj
  · intro utcH
    exact jsHourIndex_eq_emod utcH off hoff
  · intro m hdvd
    exact jsHourIndex_eq_trueLocalHour m off hoff hdvd

/-- Witness for C5 (amended) at the concrete fractional offset +30. -/
theorem claim_C5_histogram_bins_witness :
    (computeHoursHistogram [⟨some 645, false, ("x")⟩] 30).getD 10 none =
      (if binCount [⟨some 645, false, ("x")⟩] 30 10 = 0 then none
       else some (binCount [⟨some 645, false, ("x")⟩] 30 10)) :=
  (claim_C5_histogram_bins [⟨some 645, false, ("x")⟩] 30 (by norm_num)).1 10 (by norm_num)

theorem computeHoursHistogram_length (prs : List PRRecord) (off : Int) :
    (computeHoursHistogram prs off).length = 24 := by
  unfold computeHoursHistogram
  suffices h : ∀ acc : List (Option Int), acc.length = 24 →
      (prs.foldl
        (fun buckets pr =>
          match pr.createdAt with
          | none => buckets
          | some m =>
            let idx := jsHourIndex (getUTCHours m) off
            if 0 ≤ idx ∧ idx < 24 then
              buckets.set idx.toNat (some ((buckets.getD idx.toNat none).getD 0 + 1))
            else buckets)
        acc).length = 24 by
    exact h _ (by simp)
  induction prs with
  | nil => intro acc h; simpa using h
  | cons pr rest ih =>
    intro acc h
    rw [List.foldl_cons]
    cases hc : pr.createdAt with
    | none => simp only [hc]; exact ih acc h
    | some m =>
      simp only [hc]
      split
      · exact ih _ (by simp [h])
      · exact ih acc h

/-- The four PRs of the spec's histogram example: created at UTC 10:15,
10:45, 18:30 and 19:30, i.e. minutes-of-day 615, 645, 1110, 1170. -/
def prsExample : List PRRecord :=
  [⟨some 615, false, ("x")⟩, ⟨some 645, false, ("x")⟩,
   ⟨some 1110, false, ("x")⟩, ⟨some 1170, false, ("x")⟩]

/-- The expected example histogram: bin 10 ↦ 2, bin 18 ↦ 1, bin 19 ↦ 1, all
other bins null. -/
def histExample : List (Option Int) :=
  [none, none, none, none, none, none, none, none, none, none, some 2,
   none, none, none, none, none, none, none, some 1, some 1,
   none, none, none, none]

theorem binCount_prsExample (j : Nat) :
    binCount prsExample 0 j =
      (if j = 10 then 2 else if j = 18 then 1 else if j = 19 then 1 else 0) := by
  have e10 : jsHourIndex 10 0 = 10 := by
    rw [jsHourIndex_eq_emod 10 0 (by norm_num)]; decide
  have e18 : jsHourIndex 18 0 = 18 := by
    rw [jsHourIndex_eq_emod 18 0 (by norm_num)]; decide
  have e19 : jsHourIndex 19 0 = 19 := by
    rw [jsHourIndex_eq_emod 19 0 (by norm_num)]; decide
  by_cases h10 : j = 10 <;> by_cases h18 : j = 18 <;> by_cases h19 : j = 19 <;>
    simp [binCount, prsExample, List.countP_cons, prAtBin, getUTCHours,
      e10, e18, e19, h10, h18, h19] <;> omega

/-- Claim C6: the four example PRs (UTC 10:15, 10:45, 18:30, 19:30, offset 0)
produce histogram bins 10 ↦ 2, 18 ↦ 1, 19 ↦ 1, all other bins null; the
first core-hours window of that histogram is 09:00–10:00; and in general
`computeCoreHours` returns at most 2 windows, and exactly 0 when the
histogram's total is 0. -/
theorem claim_C6_example_histogram_core_hours :
    computeHoursHistogram prsExample 0 = histExample ∧
    (computeCoreHours histExample).head? = some ⟨("09:00"), ("10:00")⟩ ∧
    (∀ hist : List (Option Int), (computeCoreHours hist).length ≤ 2) ∧
    (∀ hist : List (Option Int), histTotal hist = 0 → computeCoreHours hist = []) := by
  refine ⟨?_, by decide, ?_, ?_⟩
  · apply List.ext_getElem
    · rw [computeHoursHistogram_length]
      rfl
    · intro i h1 h2
      rw [computeHoursHistogram_length] at h1
      rw [← List.getD_eq_getElem (computeHoursHistogram prsExample 0) none
          (by rw [computeHoursHistogram_length]; exact h1),
        ← List.getD_eq_getElem histExample none h2,
        computeHoursHistogram_getD prsExample 0 i h1, binCount_prsExample i]
      interval_cases i <;> rfl
  · intro hist
    unfold computeCoreHours
    split
    · simp
    · simp only [List.length_map]
      exact List.length_take_le 2 _
  · intro hist h
    unfold computeCoreHours
    rw [if_pos h]

/-- Witness for C6: the zero-total histogram case at a concrete histogram. -/
theorem claim_C6_example_histogram_core_hours_witness :
    histTotal [none] = 0 ∧ computeCoreHours [none] = [] :=
  ⟨by decide, claim_C6_example_histogram_core_hours.2.2.2 [none] (by decide)⟩

/-- A histogram whose only nonzero bin is hour 10. -/
def histOneBin : List (Option Int) :=
  [none, none, none, none, none, none, none, none, none, none, some 1,
   none, none, none, none, none, none, none, none, none,
   none, none, none, none]

theorem formatHour_inj_lt : ∀ a < 24, ∀ b < 24, formatHour a = formatHour b → a = b := by
  decide

/-- Claim C10: the two windows returned by `computeCoreHours` always have
distinct start hours, but may overlap in one shared hour: with only bin 10
nonzero the windows are the consecutive 09:00–10:00 and 10:00–11:00. -/
theorem claim_C10_core_windows_distinct :
    computeCoreHours histOneBin =
      [⟨("09:00"), ("10:00")⟩, ⟨("10:00"), ("11:00")⟩] ∧
    (∀ (hist : List (Option Int)) (w1 w2 : CoreWindow),
      computeCoreHours hist = [w1, w2] → w1.start ≠ w2.start) := by
  constructor
  · decide
  · intro hist w1 w2 heq
    simp only [computeCoreHours] at heq
    split at heq
    · simp at heq
    · set pairs := (List.range 24).map
        (fun h => WindowSum.mk h ((h + 1) % 24) (getBin hist h + getBin hist ((h + 1) % 24)))
        with hpairs
      set sorted := List.insertionSort (fun a b => b.value ≤ a.value) pairs with hsorted
      have hstarts : pairs.map WindowSum.start = List.range 24 := by
        rw [hpairs, List.map_map]
        exact List.map_id _
      have hnd : (pairs.map WindowSum.start).Nodup := by
        rw [hstarts]
        exact List.nodup_range 24
      have hperm : sorted.Perm pairs := List.perm_insertionSort _ _
      have hndsorted : (sorted.map WindowSum.start).Nodup :=
        ((hperm.map WindowSum.start).nodup_iff).mpr hnd
      cases hs : sorted.take 2 with
      | nil => rw [hs] at heq; simp at heq
      | cons p1 tail =>
        cases tail with
        | nil => rw [hs] at heq; simp at heq
        | cons p2 tail2 =>
          cases tail2 with
          | cons p3 tail3 =>
            have hle := List.length_take_le 2 sorted
            rw [hs] at hle
            simp at hle
          | nil =>
            rw [hs] at heq
            simp only [List.map_cons, List.map_nil] at heq
            injection heq with h1 heq2
            injection heq2 with h2 _
            have hsub : List.Sublist [p1, p2] sorted := by
              rw [← hs]
              exact List.take_sublist 2 sorted
            have hnd2 : ([p1, p2].map WindowSum.start).Nodup :=
              (hsub.map WindowSum.start).nodup hndsorted
            have hne : p1.start ≠ p2.start := by
              simp at hnd2
              exact hnd2
            have hmem1 : p1 ∈ pairs := hperm.mem_iff.mp (hsub.subset (by simp))
            have hmem2 : p2 ∈ pairs := hperm.mem_iff.mp (hsub.subset (by simp))
            have hlt1 : p1.start < 24 := by
              obtain ⟨h, hh, hp⟩ := List.mem_map.mp hmem1
              rw [← hp]
              simpa using List.mem_range.mp hh
            have hlt2 : p2.start < 24 := by
              obtain ⟨h, hh, hp⟩ := List.mem_map.mp hmem2
              rw [← hp]
              simpa using List.mem_range.mp hh
            intro hcontra
            apply hne
            apply formatHour_inj_lt p1.start hlt1 p2.start hlt2
            rw [← h1] at hcontra
            rw [← h2] at hcontra
            exact hcontra

/-- Witness for C10: the two windows at the single-bin histogram, produced by
the theorem itself, have distinct starts. -/
theorem claim_C10_core_windows_distinct_witness :
    (CoreWindow.mk ("09:00") ("10:00")).start ≠ (CoreWindow.mk ("10:00") ("11:00")).start :=
  claim_C10_core_windows_distinct.2 histOneBin _ _ claim_C10_core_windows_distinct.1
